import Mathlib

/-!
Verification development for the `09_memc_load/memc_load_mp.py` ingestion
pipeline: a shallow embedding of its record parser, retrying cache writer,
batching worker and per-file orchestration, together with theorems that
settle the specified properties against the embedded code.

Modelling conventions:
* Python strings are Lean `String`s; the string primitives the script uses
  (`str.strip`, `str.split`) are re-implemented structurally over `List Char`
  so that every definition evaluates inside the kernel.
* Python floats are modelled as rationals (`ℚ`); `float(...)`/`int(...)`
  conversions are parameters of the parser (`pf`/`pi`), since the script
  treats them as opaque fallible conversions.
* Exceptions are explicit: a fallible computation returns `Except` /
  a sum-like inductive recording which exception escaped.
* The thread/process machinery is collapsed to one deterministic worker
  draining a pre-loaded job list; the claims under study quantify over a
  single worker's drain, so no interleaving is lost.
-/

namespace MemcLoad

/-- Characters stripped by Python `str.strip()` with no argument. -/
def isPySpace (c : Char) : Bool :=
  c = ' ' || c = '\t' || c = '\n' || c = '\r' || c = '\x0b' || c = '\x0c'

/-- Strip leading and trailing whitespace from a character list. -/
def stripChars (l : List Char) : List Char :=
  ((l.dropWhile isPySpace).reverse.dropWhile isPySpace).reverse

/-- Python `line.strip()`. -/
def pyStrip (s : String) : String :=
  String.mk (stripChars s.data)

/-- Split a character list on a separator character, Python `str.split(sep)`
semantics: the empty list yields `[[]]`, trailing separators yield empty
groups. -/
def chSplit (sep : Char) : List Char → List (List Char)
  | [] => [[]]
  | c :: rest =>
    match chSplit sep rest with
    | [] => [[c]]
    | g :: gs => if c = sep then [] :: g :: gs else (c :: g) :: gs

/-- Python `s.split(sep)` for a one-character separator. -/
def pySplit (sep : Char) (s : String) : List String :=
  (chSplit sep s.data).map String.mk

/-- A Python value that is either a parsed float (modelled as `ℚ`) or a raw
string left untouched by a failed conversion.  The parser stores the
latitude/longitude fields at this type because `parse_appsinstalled` keeps
the original strings when `float(...)` raises `ValueError`. -/
inductive PyVal where
  | num (q : ℚ)
  | str (s : String)
deriving DecidableEq, Repr

/-- Exceptions that can escape `parse_appsinstalled`: the `ValueError` of
unpacking a tuple of the wrong size, and the `AttributeError` raised by the
call `a.isidigit()` (the method does not exist on `str`). -/
inductive PyExn where
  | valueError
  | attributeError
deriving DecidableEq, Repr

/-- The `AppsInstalled` namedtuple of `memc_load_mp.py`. -/
structure AppsInstalled where
  dev_type : String
  dev_id : String
  lat : PyVal
  lon : PyVal
  apps : List Int
deriving DecidableEq, Repr

/-- The first list comprehension of the `apps` parse:
`[int(a.strip()) for a in raw_apps.split(",")]`.  It raises `ValueError`
(modelled as `none`) as soon as one token fails `int(...)`. -/
def parseAllInts (pi : String → Option Int) : List String → Option (List Int)
  | [] => some []
  | a :: rest =>
    match pi (pyStrip a) with
    | none => none
    | some n =>
      match parseAllInts pi rest with
      | none => none
      | some ns => some (n :: ns)

/-- Body of `parse_appsinstalled` after the local `line_parts` has been
computed (memc_load_mp.py lines 85-99):
* fewer than 5 tab-separated fields → `None`;
* more than 5 fields → the tuple unpacking raises `ValueError`;
* empty `dev_type` or `dev_id` → `None`;
* a token of the last field failing `int(...)` → the `except ValueError`
  branch evaluates `a.isidigit()`, which raises `AttributeError`;
* `float` failing on `lat` or `lon` → the record keeps both raw strings. -/
def parseParts (pi : String → Option Int) (pf : String → Option ℚ)
    (line_parts : List String) : Except PyExn (Option AppsInstalled) :=
  if line_parts.length < 5 then .ok none
  else
    match line_parts with
    | [dev_type, dev_id, lat, lon, raw_apps] =>
      if dev_type = "" ∨ dev_id = "" then .ok none
      else
        match parseAllInts pi (pySplit ',' raw_apps) with
        | none => .error .attributeError
        | some apps =>
          match pf lat, pf lon with
          | some la, some lo =>
            .ok (some ⟨dev_type, dev_id, .num la, .num lo, apps⟩)
          | some _, none => .ok (some ⟨dev_type, dev_id, .str lat, .str lon, apps⟩)
          | none, _ => .ok (some ⟨dev_type, dev_id, .str lat, .str lon, apps⟩)
    | _ => .error .valueError

/-- Embedding of `parse_appsinstalled` (memc_load_mp.py lines 75-99).
`pi` models the builtin `int`, `pf` the builtin `float`; both are opaque
fallible conversions.  Returns `.ok none` where the Python code returns
`None`, `.ok (some r)` where it returns a namedtuple, and `.error e` where
an exception escapes. -/
def parse_appsinstalled (pi : String → Option Int) (pf : String → Option ℚ)
    (line : String) : Except PyExn (Option AppsInstalled) :=
  parseParts pi pf (pySplit '\t' (pyStrip line))

/-- A concrete stand-in for the builtin `int`: an optional sign followed by
a non-empty run of ASCII digits (used to instantiate `pi` in witnesses). -/
def decimalInt (s : String) : Option Int :=
  let core : List Char → Option Int := fun ds =>
    if ds ≠ [] ∧ ds.all (fun c => '0' ≤ c ∧ c ≤ '9') then
      some (ds.foldl (fun n c => 10 * n + ((c.toNat : Int) - ('0'.toNat : Int))) 0)
    else none
  match s.data with
  | '-' :: ds => (core ds).map (fun n => -n)
  | '+' :: ds => core ds
  | ds => core ds

/-- A concrete stand-in for the builtin `float` used in witnesses: succeeds
exactly on what `decimalInt` accepts (so `"55.5"` fails, as a stand-in for
an unparsable coordinate under this instantiation). -/
def decimalRat (s : String) : Option ℚ :=
  (decimalInt s).map (fun n => (n : ℚ))

/-- Outcome of one `memc_client.set_multi(batch)` call: a returned truthiness
(`ret true` truthy, `ret false` falsy) or a raised exception. -/
inductive CallOutcome where
  | ret (ok : Bool)
  | exn
deriving DecidableEq, Repr

/-- How `insert_appsinstalled` terminates: a normal return (the function has
no return value, so the caller cannot distinguish a successful write from
exhausted retries), or the re-raised `RuntimeError`. -/
inductive InsertResult where
  | normal
  | raised
deriving DecidableEq, Repr

/-- Observable run of `insert_appsinstalled`: its termination mode, the
retry indices at which `set_multi` was called (in order), and the
`time.sleep` durations performed (in order). -/
structure InsertRun where
  result : InsertResult
  calls : List ℕ
  sleeps : List ℚ
deriving DecidableEq, Repr

/-- The retry loop body of `insert_appsinstalled` (lines 62-68): iterate the
given retry indices; on each, call `set_multi` (`client n`); break on a
truthy result, sleep `backoff * 2 ^ n` on a falsy one, and on an exception
fall into the `except` clause that re-raises `RuntimeError`. -/
def insertLoop (client : ℕ → CallOutcome) (backoff : ℚ) : List ℕ → InsertRun
  | [] => ⟨.normal, [], []⟩
  | n :: rest =>
    match client n with
    | .exn => ⟨.raised, [n], []⟩
    | .ret true => ⟨.normal, [n], []⟩
    | .ret false =>
      let r := insertLoop client backoff rest
      ⟨r.result, n :: r.calls, backoff * 2 ^ n :: r.sleeps⟩

/-- Embedding of `insert_appsinstalled` (lines 49-72) for one device type:
the client lookup and dry-run logging are elided; the loop runs
`for retry_num in range(1, maxRetries)`, i.e. over `[1, ..., maxRetries-1]`.
Falling off the end of the loop with `ok` still falsy is a *normal* return:
the function raises only when `set_multi` itself raises. -/
def insert_appsinstalled (maxRetries : ℕ) (backoff : ℚ)
    (client : ℕ → CallOutcome) : InsertRun :=
  insertLoop client backoff (List.range' 1 (maxRetries - 1))

/-- A batch (the inner dict of the collector): cache key → packed record.
The packed protobuf bytes are modelled by the record itself (serialization
is opaque and does not affect key counting). -/
abbrev Batch := List (String × AppsInstalled)

/-- The worker's collector: device type → batch, in insertion order. -/
abbrev Collector := List (String × Batch)

/-- Python dict assignment `d[k] = v`: overwrite in place or append. -/
def dictInsert (k : String) (v : α) : List (String × α) → List (String × α)
  | [] => [(k, v)]
  | (k', v') :: rest =>
    if k' = k then (k', v) :: rest else (k', v') :: dictInsert k v rest

/-- Python `d.get(k)`. -/
def dictGet (k : String) : List (String × α) → Option α
  | [] => none
  | (k', v') :: rest => if k' = k then some v' else dictGet k rest

/-- Embedding of `add_appsinstalled_to_batch` (lines 102-120): build the
cache key `dev_type:dev_id`, the singleton `write_value`, then either
`collector[dev_type].update(write_value)` when `collector.get(dev_type)` is
truthy (a non-empty dict), or `collector[dev_type] = write_value`. -/
def add_appsinstalled_to_batch (appsinstalled : AppsInstalled)
    (collector : Collector) : Collector :=
  let key := appsinstalled.dev_type ++ ":" ++ appsinstalled.dev_id
  let dev_type := appsinstalled.dev_type
  match dictGet dev_type collector with
  | some b =>
    if b ≠ [] then dictInsert dev_type (dictInsert key appsinstalled b) collector
    else dictInsert dev_type [(key, appsinstalled)] collector
  | none => dictInsert dev_type [(key, appsinstalled)] collector

/-- The flush loop of `handle_insert_appsinstalled` (lines 147-154): for
each `(dev_type, batch)` of the collector, call `insert_appsinstalled`;
`raises dev_type batch` tells whether that call raised, in which case
`errors += len(batch)`, else `processed += len(batch)`. -/
def flushCollector (raises : String → Batch → Bool) :
    Collector → ℕ → ℕ → ℕ × ℕ
  | [], p, e => (p, e)
  | (dt, b) :: rest, p, e =>
    if raises dt b then flushCollector raises rest p (e + b.length)
    else flushCollector raises rest (p + b.length) e

/-- Observable events of one worker run: a flush of the collector (recording
the `collected` counter at flush time and whether the flush was triggered by
the queue-empty timeout) and the final `result_queue.put((processed,
errors))`. -/
inductive WEvent where
  | flushEv (collected : ℕ) (onEmpty : Bool)
  | reportEv (p e : ℕ)
deriving DecidableEq, Repr

/-- The loop of `handle_insert_appsinstalled` (lines 130-159) draining a
pre-loaded job list with a producer that has finished: each iteration takes
one job (or hits `Empty` when the list is exhausted), adds it to the
collector, and flushes when `collected >= batchSize` or on the empty signal
with a non-empty collector; on the empty signal it reports `(processed,
errors)` and returns.  Returns the reported counters and the event trace. -/
def workerGo (raises : String → Batch → Bool) (batchSize : ℕ) :
    List AppsInstalled → Collector → ℕ → ℕ → ℕ → (ℕ × ℕ) × List WEvent
  | [], collector, p, e, collected =>
    if 0 < collected then
      let pe := flushCollector raises collector p e
      (pe, [.flushEv collected true, .reportEv pe.1 pe.2])
    else ((p, e), [.reportEv p e])
  | job :: rest, collector, p, e, collected =>
    let collector' := add_appsinstalled_to_batch job collector
    let collected' := collected + 1
    if batchSize ≤ collected' then
      let pe := flushCollector raises collector' p e
      let r := workerGo raises batchSize rest [] pe.1 pe.2 0
      (r.1, .flushEv collected' false :: r.2)
    else workerGo raises batchSize rest collector' p e collected'

/-- Embedding of `handle_insert_appsinstalled` for one worker: counters
reported on the result queue after draining `jobs`. -/
def handle_insert_appsinstalled (raises : String → Batch → Bool)
    (batchSize : ℕ) (jobs : List AppsInstalled) : ℕ × ℕ :=
  (workerGo raises batchSize jobs [] 0 0 0).1

/-- The worker's event trace. -/
def workerTrace (raises : String → Batch → Bool) (batchSize : ℕ)
    (jobs : List AppsInstalled) : List WEvent :=
  (workerGo raises batchSize jobs [] 0 0 0).2

/-- Derive the worker's view of `insert_appsinstalled` from a per-device
client: the flush counts a batch as errors exactly when the call raised. -/
def raisesOf (maxRetries : ℕ) (backoff : ℚ)
    (client : String → ℕ → CallOutcome) : String → Batch → Bool :=
  fun dt _ =>
    match (insert_appsinstalled maxRetries backoff (client dt)).result with
    | .raised => true
    | .normal => false

/-- The constant `NORMAL_ERR_RATE` (line 19), the float literal `0.01` as a rational. -/
def NORMAL_ERR_RATE : ℚ := 1 / 100

/-- What `gzip.open(fn, "rt")` plus the line iteration yields for one file:
either an exception somewhere while opening/streaming, or the file's lines. -/
inductive FileRead where
  | failure
  | content (lines : List String)

/-- The logged verdict of the error-rate gate at the end of
`handle_logfile`: no log line (ratio skipped), the acceptance log, or the
high-error-rate log.  None of these alters the returned value. -/
inductive Verdict where
  | noVerdict
  | accept
  | failed
deriving DecidableEq, Repr

/-- Observable outcome of `handle_logfile` for one file: the returned file
name, the final counters, and the logged verdict. -/
structure LogfileResult where
  ret : String
  processed : ℕ
  errors : ℕ
  verdict : Verdict
deriving DecidableEq, Repr

/-- The producer loop of `handle_logfile` (lines 218-237): strip each line,
skip blanks, parse; a parse returning `None` or an unroutable device type
(`DEVICE_MEMC.get` falsy: absent or empty address) increments the
file-level error counter; a parser exception propagates to the enclosing
`try` (the `File read error` handler).  Accumulates the jobs enqueued. -/
def streamLines (pi : String → Option Int) (pf : String → Option ℚ)
    (memcAddr : String → Option String) :
    List String → ℕ → List AppsInstalled → Except PyExn (ℕ × List AppsInstalled)
  | [], errs, jobs => .ok (errs, jobs)
  | l :: rest, errs, jobs =>
    let l' := pyStrip l
    if l' = "" then streamLines pi pf memcAddr rest errs jobs
    else
      match parse_appsinstalled pi pf l' with
      | .error e => .error e
      | .ok none => streamLines pi pf memcAddr rest (errs + 1) jobs
      | .ok (some r) =>
        match memcAddr r.dev_type with
        | none => streamLines pi pf memcAddr rest (errs + 1) jobs
        | some addr =>
          if addr = "" then streamLines pi pf memcAddr rest (errs + 1) jobs
          else streamLines pi pf memcAddr rest errs (jobs ++ [r])

/-- Embedding of `handle_logfile` (lines 188-260).  The thread pool is
collapsed into one worker draining the produced jobs.  An exception while
opening/streaming (including a parser exception) hits the
`except ... return fn` branch: the function still returns the file name,
with no counters reported and no verdict logged.  Otherwise the worker
counters are summed with the file-level errors and the error-rate gate runs
(ratio skipped when `processed` is zero); the file name is returned in
every case. -/
def handle_logfile (pi : String → Option Int) (pf : String → Option ℚ)
    (memcAddr : String → Option String) (raises : String → Batch → Bool)
    (batchSize : ℕ) (fn : String) : FileRead → LogfileResult
  | .failure => ⟨fn, 0, 0, .noVerdict⟩
  | .content lines =>
    match streamLines pi pf memcAddr lines 0 [] with
    | .error _ => ⟨fn, 0, 0, .noVerdict⟩
    | .ok (fileErrs, jobs) =>
      let pe := handle_insert_appsinstalled raises batchSize jobs
      let processed := pe.1
      let errors := fileErrs + pe.2
      let verdict :=
        if processed ≠ 0 then
          if (errors : ℚ) / (processed : ℚ) < NORMAL_ERR_RATE then Verdict.accept
          else Verdict.failed
        else Verdict.noVerdict
      ⟨fn, processed, errors, verdict⟩

/-- Python `os.path.split` for POSIX paths: split at the last `/`; the head keeps
no trailing slashes unless it consists only of slashes. -/
def os_path_split (p : String) : String × String :=
  let rev := p.data.reverse
  let tail := (rev.takeWhile (· ≠ '/')).reverse
  let head0 := (rev.dropWhile (· ≠ '/')).reverse
  let head :=
    if head0 ≠ [] ∧ ¬ head0.all (· = '/') then
      (head0.reverse.dropWhile (· = '/')).reverse
    else head0
  (String.mk head, String.mk tail)

/-- Python `os.path.join(head, tail)` for POSIX paths, for the two-argument use in
`dot_rename`. -/
def os_path_join (head tail : String) : String :=
  if tail.data.head? = some '/' then tail
  else if head = "" ∨ head.data.getLast? = some '/' then head ++ tail
  else head ++ "/" ++ tail

/-- Embedding of `dot_rename` (lines 38-46): the destination name, with the
base name prefixed by `"."`. -/
def dot_rename (path : String) : String :=
  let st := os_path_split path
  os_path_join st.1 ("." ++ st.2)

/-- The dispatch loop of `main` (lines 271-272): every file name yielded by
`pool.imap(handler, fnames)` — i.e. the `ret` of `handle_logfile`, produced
for every file, error or not — is passed to `dot_rename`.  Returns the list
of renamed-to names, one per input file. -/
def main_renames (pi : String → Option Int) (pf : String → Option ℚ)
    (memcAddr : String → Option String) (raises : String → Batch → Bool)
    (batchSize : ℕ) (reads : String → FileRead) (fnames : List String) :
    List String :=
  fnames.map fun fn =>
    dot_rename (handle_logfile pi pf memcAddr raises batchSize fn (reads fn)).ret

/-- Total number of accumulated keys across the collector's batches. -/
def totalLen (c : Collector) : ℕ :=
  (c.map fun x => x.2.length).sum

/-- Every `(device type, cache key)` pair present in the collector. -/
def collKeys (c : Collector) : List (String × String) :=
  c.bind fun x => x.2.map fun kv => (x.1, kv.1)

/-- The `(device type, cache key)` pair a job contributes. -/
def jobKey (j : AppsInstalled) : String × String :=
  (j.dev_type, j.dev_type ++ ":" ++ j.dev_id)

/-- A stub cache client that fails transport on the first two attempts and
would succeed on a third one. -/
def failTwiceClient : ℕ → CallOutcome :=
  fun n => if n ≤ 2 then .ret false else .ret true

end MemcLoad

namespace MemcLoad

example : pySplit '\t' (pyStrip "idfa\tdev1\t55.5\t42.4\t1,2")
    = ["idfa", "dev1", "55.5", "42.4", "1,2"] := by decide

example : decimalInt "42" = some 42 := by decide

example : decimalInt "foo" = none := by decide

example : parse_appsinstalled decimalInt decimalRat "a\tb" = .ok none := rfl

example : parse_appsinstalled decimalInt decimalRat "idfa\tdev1\t55.5\t42.4\t1,foo,3"
    = .error .attributeError := rfl

example : parse_appsinstalled decimalInt decimalRat "a\tb\tc\td\te\tf"
    = .error .valueError := rfl

example : parse_appsinstalled decimalInt decimalRat "idfa\tdev1\t55.5\t42.4\t1,2"
    = .ok (some ⟨"idfa", "dev1", .str "55.5", .str "42.4", [1, 2]⟩) := rfl

example : parse_appsinstalled decimalInt decimalRat "idfa\tdev1\t55\t42\t1,2"
    = .ok (some ⟨"idfa", "dev1", .num 55, .num 42, [1, 2]⟩) := rfl

/-- Reduction of `parseParts` on an exactly-five-field split, one step. -/
lemma parseParts_five (pi : String → Option Int) (pf : String → Option ℚ)
    (dt did la lo ra : String) :
    parseParts pi pf [dt, did, la, lo, ra] =
      if dt = "" ∨ did = "" then .ok none
      else
        match parseAllInts pi (pySplit ',' ra) with
        | none => .error .attributeError
        | some apps =>
          match pf la, pf lo with
          | some a, some b => .ok (some ⟨dt, did, .num a, .num b, apps⟩)
          | some _, none => .ok (some ⟨dt, did, .str la, .str lo, apps⟩)
          | none, _ => .ok (some ⟨dt, did, .str la, .str lo, apps⟩) := rfl

/-- C5: a line splitting into fewer than 5 tab-separated fields, or with an
empty `dev_type`/`dev_id`, makes the parser return `None` (no record, no
exception); a well-formed line — exactly 5 fields, non-empty type and id,
every comma-token of the last field parsing as an integer — yields a record
whose `dev_type`, `dev_id` and `apps` exactly match the input fields. -/
theorem claim5_parser_failure_and_exact_match (pi : String → Option Int)
    (pf : String → Option ℚ) (line : String) :
    ((pySplit '\t' (pyStrip line)).length < 5 →
      parse_appsinstalled pi pf line = .ok none) ∧
    (∀ dt did la lo ra, pySplit '\t' (pyStrip line) = [dt, did, la, lo, ra] →
      ((dt = "" ∨ did = "") → parse_appsinstalled pi pf line = .ok none) ∧
      (¬(dt = "" ∨ did = "") → ∀ apps,
        parseAllInts pi (pySplit ',' ra) = some apps →
        ∃ r, parse_appsinstalled pi pf line = .ok (some r) ∧
          r.dev_type = dt ∧ r.dev_id = did ∧ r.apps = apps)) := by
  constructor
  · intro h
    unfold parse_appsinstalled parseParts
    rw [if_pos h]
  · intro dt did la lo ra hsplit
    constructor
    · intro hempty
      unfold parse_appsinstalled
      rw [hsplit, parseParts_five, if_pos hempty]
    · intro hne apps happs
      unfold parse_appsinstalled
      rw [hsplit, parseParts_five, if_neg hne, happs]
      rcases hla : pf la with _ | a <;> rcases hlo : pf lo with _ | b
      · exact ⟨_, rfl, rfl, rfl, rfl⟩
      · exact ⟨_, rfl, rfl, rfl, rfl⟩
      · exact ⟨_, rfl, rfl, rfl, rfl⟩
      · exact ⟨_, rfl, rfl, rfl, rfl⟩

/-- Witness for C5 at concrete lines: a 2-field line is rejected with no
record, and a fully well-formed line produces a record echoing its fields. -/
theorem claim5_witness :
    parse_appsinstalled decimalInt decimalRat "a\tb" = .ok none ∧
    ∃ r, parse_appsinstalled decimalInt decimalRat "idfa\tdev1\t55\t42\t1,2"
      = .ok (some r) ∧ r.dev_type = "idfa" ∧ r.dev_id = "dev1" ∧ r.apps = [1, 2] := by
  constructor
  · exact (claim5_parser_failure_and_exact_match decimalInt decimalRat "a\tb").1
      (by decide)
  · obtain ⟨r, h⟩ :=
      ((claim5_parser_failure_and_exact_match decimalInt decimalRat
          "idfa\tdev1\t55\t42\t1,2").2 "idfa" "dev1" "55" "42" "1,2"
        (by decide)).2 (by decide) [1, 2] (by decide)
    exact ⟨r, h⟩

/-- C9: a line splitting into more than 5 tab-separated fields neither
produces a record nor returns the `None` failure value: the tuple unpacking
raises `ValueError`, so the parser is not total over input lines. -/
theorem claim9_extra_fields_raise (pi : String → Option Int)
    (pf : String → Option ℚ) (line : String)
    (h : 5 < (pySplit '\t' (pyStrip line)).length) :
    parse_appsinstalled pi pf line = .error .valueError := by
  unfold parse_appsinstalled
  rcases hL : pySplit '\t' (pyStrip line) with
      _ | ⟨a, _ | ⟨b, _ | ⟨c, _ | ⟨d, _ | ⟨e, _ | ⟨f, rest⟩⟩⟩⟩⟩⟩ <;>
    rw [hL] at h <;> simp only [List.length_cons, List.length_nil] at h
  · omega
  · omega
  · omega
  · omega
  · omega
  · omega
  · unfold parseParts
    rw [if_neg (by simp only [List.length_cons]; omega)]

/-- Witness for C9: a 6-field line raises `ValueError`. -/
theorem claim9_witness :
    5 < (pySplit '\t' (pyStrip "a\tb\tc\td\te\tf")).length ∧
    parse_appsinstalled decimalInt decimalRat "a\tb\tc\td\te\tf"
      = .error .valueError :=
  ⟨by decide, claim9_extra_fields_raise decimalInt decimalRat "a\tb\tc\td\te\tf"
    (by decide)⟩

/-- C10: when `float` fails on the latitude or the longitude (and the line
otherwise parses — 5 fields, non-empty type/id, all apps-tokens integral),
the parser still emits a record, and both its `lat` and `lon` fields hold
the original unparsed input strings rather than numbers. -/
theorem claim10_bad_coords_keep_strings (pi : String → Option Int)
    (pf : String → Option ℚ) (line dt did la lo ra : String)
    (apps : List Int)
    (hsplit : pySplit '\t' (pyStrip line) = [dt, did, la, lo, ra])
    (hne : ¬(dt = "" ∨ did = ""))
    (happs : parseAllInts pi (pySplit ',' ra) = some apps)
    (hcoord : pf la = none ∨ pf lo = none) :
    parse_appsinstalled pi pf line
      = .ok (some ⟨dt, did, .str la, .str lo, apps⟩) := by
  unfold parse_appsinstalled
  rw [hsplit, parseParts_five, if_neg hne, happs]
  rcases hla : pf la with _ | a <;> rcases hlo : pf lo with _ | b <;>
    simp_all

/-- Witness for C10: coordinates `"55.5"`/`"42.4"` are rejected by the
concrete float stand-in, yet the record is produced with those strings. -/
theorem claim10_witness :
    parse_appsinstalled decimalInt decimalRat "idfa\tdev1\t55.5\t42.4\t1,2"
      = .ok (some ⟨"idfa", "dev1", .str "55.5", .str "42.4", [1, 2]⟩) :=
  claim10_bad_coords_keep_strings decimalInt decimalRat
    "idfa\tdev1\t55.5\t42.4\t1,2" "idfa" "dev1" "55.5" "42.4" "1,2" [1, 2]
    (by decide) (by decide) (by decide) (Or.inl (by decide))

/-- C4 (code bug): a well-formed line whose last field contains one
non-integer token does not produce a shortened record as documented — the
recovery branch calls the non-existent string method `isidigit`, so the
parser raises `AttributeError` and the record is lost (and, through the
`File read error` handler of `handle_logfile`, the whole file is aborted). -/
theorem claim4_isidigit_typo_raises :
    parse_appsinstalled decimalInt decimalRat "idfa\tdev1\t55.5\t42.4\t1,foo,3"
      = .error .attributeError ∧
    (handle_logfile decimalInt decimalRat (fun _ => some "addr")
        (fun _ _ => false) 5000 "f.tsv.gz"
        (.content ["idfa\tdev1\t55.5\t42.4\t1,foo,3"])).processed = 0 :=
  ⟨rfl, rfl⟩

/-- C1 (code bug): when every `set_multi` call returns a falsy result, the
retry loop of `insert_appsinstalled` runs out with `ok` still falsy and the
function *returns normally* — the computed `ok` is discarded and no
exception is raised — so `handle_insert_appsinstalled` counts every key of
the batch in `processed`, not in `errors`. -/
theorem claim1_falsy_exhaustion_counted_as_processed :
    (insert_appsinstalled 3 (3 / 10) (fun _ => CallOutcome.ret false)).result
      = InsertResult.normal ∧
    handle_insert_appsinstalled
        (raisesOf 3 (3 / 10) (fun _ _ => CallOutcome.ret false)) 5000
        [⟨"idfa", "d1", .num 55, .num 42, [1]⟩,
         ⟨"idfa", "d2", .num 55, .num 42, [2]⟩]
      = (2, 0) :=
  ⟨rfl, rfl⟩

/-- C2 (code bug): a file whose open/streaming fails is returned by
`handle_logfile` from its `except` branch, and `main` calls `dot_rename` on
*every* name `pool.imap` yields — so the errored file is renamed with the
processed-prefix and will not be reattempted on a future run. -/
theorem claim2_failed_open_still_renamed :
    (handle_logfile decimalInt decimalRat (fun _ => none) (fun _ _ => false)
        5000 "harddata.tsv.gz" .failure).ret = "harddata.tsv.gz" ∧
    main_renames decimalInt decimalRat (fun _ => none) (fun _ _ => false) 5000
        (fun _ => FileRead.failure) ["harddata.tsv.gz"]
      = [".harddata.tsv.gz"] :=
  ⟨rfl, rfl⟩

lemma flushCollector_sum (raises : String → Batch → Bool) (c : Collector) :
    ∀ p e : ℕ, (flushCollector raises c p e).1 + (flushCollector raises c p e).2
      = p + e + totalLen c := by
  induction c with
  | nil => intro p e; simp [flushCollector, totalLen]
  | cons hd tl ih =>
    intro p e
    rcases hd with ⟨dt, b⟩
    simp only [flushCollector]
    split_ifs with h
    · rw [ih]; simp only [totalLen, List.map_cons, List.sum_cons]; omega
    · rw [ih]; simp only [totalLen, List.map_cons, List.sum_cons]; omega

lemma dictInsert_length_le {α : Type} (k : String) (v : α)
    (d : List (String × α)) : (dictInsert k v d).length ≤ d.length + 1 := by
  induction d with
  | nil => simp [dictInsert]
  | cons hd tl ih =>
    rcases hd with ⟨k', v'⟩
    simp only [dictInsert]
    split_ifs with h
    · simp
    · simpa using Nat.succ_le_succ ih

lemma dictInsert_length_of_not_mem {α : Type} (k : String) (v : α)
    (d : List (String × α)) (h : ∀ x ∈ d, x.1 ≠ k) :
    (dictInsert k v d).length = d.length + 1 := by
  induction d with
  | nil => simp [dictInsert]
  | cons hd tl ih =>
    rcases hd with ⟨k', v'⟩
    simp only [dictInsert]
    rw [if_neg (h (k', v') (by simp))]
    simp only [List.length_cons]
    rw [ih (fun x hx => h x (List.mem_cons_of_mem _ hx))]

lemma keys_dictInsert_sub {α : Type} (k : String) (v : α)
    (d : List (String × α)) :
    ∀ x ∈ (dictInsert k v d).map Prod.fst, x ∈ d.map Prod.fst ∨ x = k := by
  induction d with
  | nil => simp [dictInsert]
  | cons hd tl ih =>
    rcases hd with ⟨k', v'⟩
    intro x hx
    simp only [dictInsert] at hx
    split_ifs at hx with h
    · simp only [List.map_cons, List.mem_cons] at hx ⊢
      rcases hx with hx | hx
      · exact Or.inl (Or.inl hx)
      · exact Or.inl (Or.inr hx)
    · simp only [List.map_cons, List.mem_cons] at hx ⊢
      rcases hx with hx | hx
      · exact Or.inl (Or.inl hx)
      · rcases ih x hx with h' | h'
        · exact Or.inl (Or.inr h')
        · exact Or.inr h'

lemma totalLen_dictInsert_get_some (k : String) (b b' : Batch)
    (c : Collector) (h : dictGet k c = some b) :
    totalLen (dictInsert k b' c) + b.length = totalLen c + b'.length := by
  induction c with
  | nil => simp [dictGet] at h
  | cons hd tl ih =>
    rcases hd with ⟨k', v'⟩
    simp only [dictGet, dictInsert] at h ⊢
    split_ifs at h ⊢ with hk
    · obtain rfl : v' = b := by simpa using h
      simp only [totalLen, List.map_cons, List.sum_cons]
      omega
    · simp only [totalLen, List.map_cons, List.sum_cons]
      have := ih h
      simp only [totalLen] at this
      omega

lemma totalLen_dictInsert_get_none (k : String) (b' : Batch)
    (c : Collector) (h : dictGet k c = none) :
    totalLen (dictInsert k b' c) = totalLen c + b'.length := by
  induction c with
  | nil => simp [dictInsert, totalLen]
  | cons hd tl ih =>
    rcases hd with ⟨k', v'⟩
    simp only [dictGet] at h
    split_ifs at h with hk
    simp only [dictInsert]
    rw [if_neg hk]
    simp only [totalLen, List.map_cons, List.sum_cons]
    have := ih h
    simp only [totalLen] at this
    omega

lemma collKeys_of_dictGet (dt : String) (b : Batch) (c : Collector)
    (h : dictGet dt c = some b) :
    ∀ kv ∈ b, (dt, kv.1) ∈ collKeys c := by
  induction c with
  | nil => simp [dictGet] at h
  | cons hd tl ih =>
    rcases hd with ⟨dt', b'⟩
    intro kv hkv
    simp only [dictGet] at h
    simp only [collKeys, List.cons_bind, List.mem_append]
    split_ifs at h with hk
    · obtain rfl : b' = b := by simpa using h
      subst hk
      exact Or.inl (List.mem_map_of_mem _ hkv)
    · exact Or.inr (by simpa [collKeys] using ih h kv hkv)

lemma collKeys_dictInsert_sub (dt : String) (b' : Batch) (c : Collector) :
    ∀ x ∈ collKeys (dictInsert dt b' c),
      x ∈ collKeys c ∨ (x.1 = dt ∧ x.2 ∈ b'.map Prod.fst) := by
  induction c with
  | nil =>
    intro x hx
    simp only [dictInsert, collKeys, List.cons_bind, List.nil_bind,
      List.append_nil, List.mem_map] at hx
    obtain ⟨kv, hkv, rfl⟩ := hx
    exact Or.inr ⟨rfl, List.mem_map_of_mem _ hkv⟩
  | cons hd tl ih =>
    rcases hd with ⟨dt', b''⟩
    intro x hx
    simp only [dictInsert] at hx
    split_ifs at hx with hk
    · simp only [collKeys, List.cons_bind, List.mem_append, List.mem_map] at hx ⊢
      rcases hx with ⟨kv, hkv, rfl⟩ | hx
      · exact Or.inr ⟨hk.symm ▸ rfl, ⟨kv, hkv, rfl⟩⟩
      · exact Or.inl (Or.inr hx)
    · simp only [collKeys, List.cons_bind, List.mem_append, List.mem_map] at hx ⊢
      rcases hx with ⟨kv, hkv, rfl⟩ | hx
      · exact Or.inl (Or.inl ⟨kv, hkv, rfl⟩)
      · rcases ih x (by simpa [collKeys] using hx) with h' | h'
        · exact Or.inl (Or.inr (by simpa [collKeys] using h'))
        · exact Or.inr ⟨h'.1, by simpa using h'.2⟩

lemma add_eq_of_get_none (j : AppsInstalled) (c : Collector)
    (h : dictGet j.dev_type c = none) :
    add_appsinstalled_to_batch j c
      = dictInsert j.dev_type [(j.dev_type ++ ":" ++ j.dev_id, j)] c := by
  simp only [add_appsinstalled_to_batch, h]

lemma add_eq_of_get_empty (j : AppsInstalled) (c : Collector)
    (h : dictGet j.dev_type c = some []) :
    add_appsinstalled_to_batch j c
      = dictInsert j.dev_type [(j.dev_type ++ ":" ++ j.dev_id, j)] c := by
  simp only [add_appsinstalled_to_batch, h]
  simp

lemma add_eq_of_get_some (j : AppsInstalled) (c : Collector) (b : Batch)
    (h : dictGet j.dev_type c = some b) (hb : b ≠ []) :
    add_appsinstalled_to_batch j c
      = dictInsert j.dev_type
          (dictInsert (j.dev_type ++ ":" ++ j.dev_id) j b) c := by
  simp only [add_appsinstalled_to_batch, h]
  rw [if_pos hb]

lemma totalLen_add_le (j : AppsInstalled) (c : Collector) :
    totalLen (add_appsinstalled_to_batch j c) ≤ totalLen c + 1 := by
  rcases hg : dictGet j.dev_type c with _ | b
  · rw [add_eq_of_get_none j c hg, totalLen_dictInsert_get_none _ _ _ hg]
    simp
  · by_cases hb : b = []
    · subst hb
      rw [add_eq_of_get_empty j c hg]
      have h1 := totalLen_dictInsert_get_some j.dev_type []
        [(j.dev_type ++ ":" ++ j.dev_id, j)] c hg
      simp only [List.length_nil, List.length_cons, Nat.add_zero] at h1
      omega
    · rw [add_eq_of_get_some j c b hg hb]
      have h1 := totalLen_dictInsert_get_some j.dev_type b
        (dictInsert (j.dev_type ++ ":" ++ j.dev_id) j b) c hg
      have h2 := dictInsert_length_le (j.dev_type ++ ":" ++ j.dev_id) j b
      omega

lemma totalLen_add_of_not_mem (j : AppsInstalled) (c : Collector)
    (h : jobKey j ∉ collKeys c) :
    totalLen (add_appsinstalled_to_batch j c) = totalLen c + 1 := by
  rcases hg : dictGet j.dev_type c with _ | b
  · rw [add_eq_of_get_none j c hg, totalLen_dictInsert_get_none _ _ _ hg]
    simp
  · by_cases hb : b = []
    · subst hb
      rw [add_eq_of_get_empty j c hg]
      have h1 := totalLen_dictInsert_get_some j.dev_type []
        [(j.dev_type ++ ":" ++ j.dev_id, j)] c hg
      simp only [List.length_nil, List.length_cons, Nat.add_zero] at h1
      omega
    · rw [add_eq_of_get_some j c b hg hb]
      have h1 := totalLen_dictInsert_get_some j.dev_type b
        (dictInsert (j.dev_type ++ ":" ++ j.dev_id) j b) c hg
      have h2 : (dictInsert (j.dev_type ++ ":" ++ j.dev_id) j b).length
          = b.length + 1 := by
        refine dictInsert_length_of_not_mem _ _ _ (fun kv hkv hk => h ?_)
        have := collKeys_of_dictGet j.dev_type b c hg kv hkv
        rw [hk] at this
        exact this
      omega

lemma collKeys_add_sub (j : AppsInstalled) (c : Collector) :
    ∀ x ∈ collKeys (add_appsinstalled_to_batch j c),
      x ∈ collKeys c ∨ x = jobKey j := by
  have single : ∀ x : String × String,
      x.1 = j.dev_type →
      x.2 ∈ ([(j.dev_type ++ ":" ++ j.dev_id, j)] : Batch).map Prod.fst →
      x = jobKey j := by
    intro x h1 h2
    simp only [List.map_cons, List.map_nil, List.mem_singleton] at h2
    cases x
    simp only at h1 h2
    rw [jobKey, h1, h2]
  rcases hg : dictGet j.dev_type c with _ | b
  · rw [add_eq_of_get_none j c hg]
    intro x hx
    rcases collKeys_dictInsert_sub _ _ _ x hx with h' | ⟨h1, h2⟩
    · exact Or.inl h'
    · exact Or.inr (single x h1 h2)
  · by_cases hb : b = []
    · subst hb
      rw [add_eq_of_get_empty j c hg]
      intro x hx
      rcases collKeys_dictInsert_sub _ _ _ x hx with h' | ⟨h1, h2⟩
      · exact Or.inl h'
      · exact Or.inr (single x h1 h2)
    · rw [add_eq_of_get_some j c b hg hb]
      intro x hx
      rcases collKeys_dictInsert_sub _ _ _ x hx with h' | ⟨h1, h2⟩
      · exact Or.inl h'
      · rcases keys_dictInsert_sub _ _ _ x.2 h2 with h3 | h3
        · left
          obtain ⟨kv, hkv, hkveq⟩ := List.mem_map.mp h3
          have hmem := collKeys_of_dictGet j.dev_type b c hg kv hkv
          rw [hkveq] at hmem
          cases x
          simp only at h1
          rw [h1]
          exact hmem
        · right
          cases x
          simp only at h1 h3
          rw [jobKey, h1, h3]

lemma workerGo_counts (raises : String → Batch → Bool) (bs : ℕ) :
    ∀ (jobs : List AppsInstalled) (coll : Collector) (p e c : ℕ),
      (c = 0 → totalLen coll = 0) →
      ((workerGo raises bs jobs coll p e c).1.1
          + (workerGo raises bs jobs coll p e c).1.2
        ≤ p + e + totalLen coll + jobs.length) ∧
      ((jobs.Pairwise (fun a b => jobKey a ≠ jobKey b) ∧
          ∀ j ∈ jobs, jobKey j ∉ collKeys coll) →
        (workerGo raises bs jobs coll p e c).1.1
            + (workerGo raises bs jobs coll p e c).1.2
          = p + e + totalLen coll + jobs.length) := by
  intro jobs
  induction jobs with
  | nil =>
    intro coll p e c h0
    simp only [workerGo]
    split_ifs with hc
    · have := flushCollector_sum raises coll p e
      constructor
      · simp only [List.length_nil]
        omega
      · intro _
        simp only [List.length_nil]
        omega
    · have h0' := h0 (by omega)
      constructor
      · simp only [List.length_nil]
        omega
      · intro _
        simp only [List.length_nil]
        omega
  | cons job rest ih =>
    intro coll p e c h0
    simp only [workerGo]
    split_ifs with hflush
    · have hsum := flushCollector_sum raises (add_appsinstalled_to_batch job coll) p e
      have hih := ih [] (flushCollector raises (add_appsinstalled_to_batch job coll) p e).1
        (flushCollector raises (add_appsinstalled_to_batch job coll) p e).2 0
        (fun _ => rfl)
      have hle := totalLen_add_le job coll
      constructor
      · have := hih.1
        simp only [totalLen, List.map_nil, List.sum_nil, List.length_cons] at this ⊢
        simp only [totalLen] at hle hsum
        omega
      · rintro ⟨hp, hmem⟩
        have hnm : jobKey job ∉ collKeys coll := hmem job (by simp)
        have heq := totalLen_add_of_not_mem job coll hnm
        have := hih.2 ⟨(List.pairwise_cons.mp hp).2, by simp [collKeys]⟩
        simp only [totalLen, List.map_nil, List.sum_nil, List.length_cons] at this ⊢
        simp only [totalLen] at heq hsum
        omega
    · have hih := ih (add_appsinstalled_to_batch job coll) p e (c + 1)
        (fun h => absurd h (Nat.succ_ne_zero c))
      have hle := totalLen_add_le job coll
      constructor
      · have := hih.1
        simp only [List.length_cons]
        omega
      · rintro ⟨hp, hmem⟩
        have hnm : jobKey job ∉ collKeys coll := hmem job (by simp)
        have heq := totalLen_add_of_not_mem job coll hnm
        have hmem' : ∀ j ∈ rest, jobKey j ∉ collKeys (add_appsinstalled_to_batch job coll) := by
          intro j hj hin
          rcases collKeys_add_sub job coll _ hin with h' | h'
          · exact hmem j (List.mem_cons_of_mem _ hj) h'
          · exact (List.pairwise_cons.mp hp).1 j hj h'.symm
        have := hih.2 ⟨(List.pairwise_cons.mp hp).2, hmem'⟩
        simp only [List.length_cons]
        omega

/-- C6 amended: a worker draining `K` pre-loaded jobs reports
`processed + errors ≤ K`, with equality whenever no two jobs carry the same
`(device type, cache key)` pair — jobs duplicating a pair are merged into
one batch entry and counted once, so the claimed invariant
`processed + errors = K` holds only for duplicate-free job lists. -/
theorem claim6_drain_counters (raises : String → Batch → Bool)
    (batchSize : ℕ) (jobs : List AppsInstalled) :
    (handle_insert_appsinstalled raises batchSize jobs).1
        + (handle_insert_appsinstalled raises batchSize jobs).2
      ≤ jobs.length ∧
    (jobs.Pairwise (fun a b => jobKey a ≠ jobKey b) →
      (handle_insert_appsinstalled raises batchSize jobs).1
          + (handle_insert_appsinstalled raises batchSize jobs).2
        = jobs.length) := by
  have h := workerGo_counts raises batchSize jobs [] 0 0 0 (fun _ => rfl)
  unfold handle_insert_appsinstalled
  constructor
  · have := h.1
    simp only [totalLen, List.map_nil, List.sum_nil] at this
    omega
  · intro hp
    have := h.2 ⟨hp, by simp [collKeys]⟩
    simp only [totalLen, List.map_nil, List.sum_nil] at this
    omega

/-- Counterexample to C6 as stated: two jobs sharing `dev_type`/`dev_id`
collapse onto one cache key inside the batch dict, so the reported counters
sum to 1, not `K = 2` — one of the jobs is silently dropped from the
accounting. -/
theorem claim6_counterexample :
    handle_insert_appsinstalled (fun _ _ => false) 5000
        [⟨"idfa", "d1", .num 55, .num 42, [1]⟩,
         ⟨"idfa", "d1", .num 55, .num 42, [1]⟩]
      = (1, 0) ∧ (1 : ℕ) + 0 ≠ 2 :=
  ⟨rfl, by decide⟩

lemma insertLoop_range (client : ℕ → CallOutcome) (b : ℚ) :
    ∀ t k : ℕ, ∃ m s,
      m ≤ t ∧ s ≤ m ∧ m ≤ s + 1 ∧
      (insertLoop client b (List.range' k t)).calls = List.range' k m ∧
      (insertLoop client b (List.range' k t)).sleeps
        = (List.range' k s).map (fun n => b * 2 ^ n) ∧
      (∀ n ∈ List.range' k s, client n = .ret false) := by
  intro t
  induction t with
  | zero =>
    intro k
    exact ⟨0, 0, le_refl 0, le_refl 0, by omega, rfl, rfl, by simp⟩
  | succ t ih =>
    intro k
    rw [List.range'_succ k t 1]
    cases hc : client k with
    | exn =>
      refine ⟨1, 0, by omega, by omega, by omega, ?_, ?_, by simp⟩
      · simp [insertLoop, hc, List.range'_succ]
      · simp [insertLoop, hc]
    | ret ok =>
      cases ok with
      | true =>
        refine ⟨1, 0, by omega, by omega, by omega, ?_, ?_, by simp⟩
        · simp [insertLoop, hc, List.range'_succ]
        · simp [insertLoop, hc]
      | false =>
        obtain ⟨m', s', h1, h2, h3, hcalls, hsleeps, hfalsy⟩ := ih (k + 1)
        refine ⟨m' + 1, s' + 1, by omega, by omega, by omega, ?_, ?_, ?_⟩
        · simp only [insertLoop, hc]
          rw [hcalls, List.range'_succ k m' 1]
        · simp only [insertLoop, hc]
          rw [hsleeps, List.range'_succ k s' 1, List.map_cons]
        · intro n hn
          rw [List.range'_succ k s' 1] at hn
          rcases List.mem_cons.mp hn with rfl | hn
          · exact hc
          · exact hfalsy n hn

/-- C3 amended: for every write, `insert_appsinstalled` makes up to
`MAX_RETRIES - 1` calls to the client (the loop runs over
`range(1, MAX_RETRIES)`), not `MAX_RETRIES`; the calls are the consecutive
attempt indices starting at 1, every call before the last returned falsy
(the loop stops at the first success or exception), and it sleeps
`BACKOFF_FACTOR * 2^attempt` seconds after each falsy attempt — including
after the final one — giving strictly increasing sleep durations. -/
theorem claim3_retry_bounded_backoff_increasing (maxRetries : ℕ)
    (backoff : ℚ) (client : ℕ → CallOutcome) (hb : 0 < backoff) :
    ∃ m s,
      m ≤ maxRetries - 1 ∧ s ≤ m ∧ m ≤ s + 1 ∧
      (insert_appsinstalled maxRetries backoff client).calls
        = List.range' 1 m ∧
      (insert_appsinstalled maxRetries backoff client).sleeps
        = (List.range' 1 s).map (fun n => backoff * 2 ^ n) ∧
      (∀ n ∈ List.range' 1 s, client n = .ret false) ∧
      (insert_appsinstalled maxRetries backoff client).sleeps.Pairwise (· < ·) := by
  unfold insert_appsinstalled
  obtain ⟨m, s, h1, h2, h3, hcalls, hsleeps, hfalsy⟩ :=
    insertLoop_range client backoff (maxRetries - 1) 1
  refine ⟨m, s, h1, h2, h3, hcalls, hsleeps, hfalsy, ?_⟩
  rw [hsleeps]
  exact (List.pairwise_lt_range' 1 s).map _
    (fun a c h => mul_lt_mul_of_pos_left (pow_lt_pow_right₀ (by norm_num) h) hb)

/-- Counterexample to C3 as stated: with the default `MEMC_MAX_RETRIES = 3`
and a client that fails transport twice and would succeed on the 3rd
attempt, the loop `range(1, 3)` makes only the two calls `[1, 2]` — the
3rd, succeeding attempt never happens, so the claimed success is never
observed (the function returns normally with the falsy `ok` discarded). -/
theorem claim3_counterexample :
    (insert_appsinstalled 3 (3 / 10) failTwiceClient).calls = [1, 2] ∧
    3 ∉ (insert_appsinstalled 3 (3 / 10) failTwiceClient).calls ∧
    (insert_appsinstalled 3 (3 / 10) failTwiceClient).result = .normal := by
  refine ⟨rfl, ?_, rfl⟩
  rw [show (insert_appsinstalled 3 (3 / 10) failTwiceClient).calls = [1, 2]
    from rfl]
  decide

/-- Witness for the amended C3 at the concrete configuration values. -/
theorem claim3_witness :
    (insert_appsinstalled 3 (3 / 10) failTwiceClient).sleeps.Pairwise (· < ·) ∧
    (insert_appsinstalled 3 (3 / 10) failTwiceClient).calls.length ≤ 3 - 1 := by
  obtain ⟨m, s, h1, _, _, hcalls, _, _, hpw⟩ :=
    claim3_retry_bounded_backoff_increasing 3 (3 / 10) failTwiceClient
      (by norm_num)
  refine ⟨hpw, ?_⟩
  rw [hcalls]
  simpa using h1

/-- C7: at the end of a file's run the error rate is computed only when
`processed` is non-zero (no division by zero: the verdict is the silent one
exactly when `processed = 0`), the ratio is compared against the fixed
threshold `NORMAL_ERR_RATE = 0.01` to choose the accept/fail log line, and
the verdict is advisory: `handle_logfile` returns the file name in every
case, whatever the verdict. -/
theorem claim7_error_rate_gate_advisory (pi : String → Option Int)
    (pf : String → Option ℚ) (memcAddr : String → Option String)
    (raises : String → Batch → Bool) (batchSize : ℕ) (fn : String)
    (read : FileRead) :
    (handle_logfile pi pf memcAddr raises batchSize fn read).ret = fn ∧
    ((handle_logfile pi pf memcAddr raises batchSize fn read).processed = 0 →
      (handle_logfile pi pf memcAddr raises batchSize fn read).verdict
        = .noVerdict) ∧
    ((handle_logfile pi pf memcAddr raises batchSize fn read).processed ≠ 0 →
      (((handle_logfile pi pf memcAddr raises batchSize fn read).verdict
          = .accept ↔
        ((handle_logfile pi pf memcAddr raises batchSize fn read).errors : ℚ)
            / ((handle_logfile pi pf memcAddr raises batchSize fn read).processed : ℚ)
          < NORMAL_ERR_RATE) ∧
       ((handle_logfile pi pf memcAddr raises batchSize fn read).verdict
          = .failed ↔
        ¬ (((handle_logfile pi pf memcAddr raises batchSize fn read).errors : ℚ)
            / ((handle_logfile pi pf memcAddr raises batchSize fn read).processed : ℚ)
          < NORMAL_ERR_RATE)))) := by
  cases read with
  | failure => exact ⟨rfl, fun _ => rfl, fun h => absurd rfl h⟩
  | content lines =>
    simp only [handle_logfile]
    rcases hs : streamLines pi pf memcAddr lines 0 [] with e | ⟨fe, jobs⟩
    · exact ⟨rfl, fun _ => rfl, fun h => absurd rfl h⟩
    · refine ⟨rfl, ?_, ?_⟩
      · intro h0
        replace h0 : (handle_insert_appsinstalled raises batchSize jobs).1 = 0 :=
          h0
        show (if (handle_insert_appsinstalled raises batchSize jobs).1 ≠ 0
            then if (↑(fe + (handle_insert_appsinstalled raises batchSize jobs).2) : ℚ)
                  / (↑(handle_insert_appsinstalled raises batchSize jobs).1 : ℚ)
                  < NORMAL_ERR_RATE
              then Verdict.accept else Verdict.failed
            else Verdict.noVerdict) = Verdict.noVerdict
        rw [if_neg (by simpa using h0)]
      · intro h0
        replace h0 : (handle_insert_appsinstalled raises batchSize jobs).1 ≠ 0 :=
          h0
        show ((if (handle_insert_appsinstalled raises batchSize jobs).1 ≠ 0
            then if (↑(fe + (handle_insert_appsinstalled raises batchSize jobs).2) : ℚ)
                  / (↑(handle_insert_appsinstalled raises batchSize jobs).1 : ℚ)
                  < NORMAL_ERR_RATE
              then Verdict.accept else Verdict.failed
            else Verdict.noVerdict) = Verdict.accept ↔
            (↑(fe + (handle_insert_appsinstalled raises batchSize jobs).2) : ℚ)
                / (↑(handle_insert_appsinstalled raises batchSize jobs).1 : ℚ)
              < NORMAL_ERR_RATE) ∧
          ((if (handle_insert_appsinstalled raises batchSize jobs).1 ≠ 0
            then if (↑(fe + (handle_insert_appsinstalled raises batchSize jobs).2) : ℚ)
                  / (↑(handle_insert_appsinstalled raises batchSize jobs).1 : ℚ)
                  < NORMAL_ERR_RATE
              then Verdict.accept else Verdict.failed
            else Verdict.noVerdict) = Verdict.failed ↔
            ¬ ((↑(fe + (handle_insert_appsinstalled raises batchSize jobs).2) : ℚ)
                / (↑(handle_insert_appsinstalled raises batchSize jobs).1 : ℚ)
              < NORMAL_ERR_RATE))
        rw [if_pos h0]
        split_ifs with h2
        · exact ⟨⟨fun _ => h2, fun _ => rfl⟩,
            ⟨fun hf => absurd hf (by simp), fun hr => absurd h2 hr⟩⟩
        · exact ⟨⟨fun hf => absurd hf (by simp), fun hr => absurd hr h2⟩,
            ⟨fun _ => h2, fun _ => rfl⟩⟩

/-- Witness for C7: a one-good-line file yields the accept verdict (rate
`0/1 < 0.01`), and an empty file (zero processed) yields no verdict. -/
theorem claim7_witness :
    (handle_logfile decimalInt decimalRat (fun _ => some "x")
        (fun _ _ => false) 5000 "f.tsv.gz"
        (.content ["idfa\td1\t5\t5\t1"])).verdict = Verdict.accept ∧
    (handle_logfile decimalInt decimalRat (fun _ => some "x")
        (fun _ _ => false) 5000 "g.tsv.gz"
        (.content [])).verdict = Verdict.noVerdict := by
  constructor
  · have h := claim7_error_rate_gate_advisory decimalInt decimalRat
      (fun _ => some "x") (fun _ _ => false) 5000 "f.tsv.gz"
      (.content ["idfa\td1\t5\t5\t1"])
    refine (h.2.2 (by decide)).1.mpr ?_
    rw [show (handle_logfile decimalInt decimalRat (fun _ => some "x")
        (fun _ _ => false) 5000 "f.tsv.gz"
        (.content ["idfa\td1\t5\t5\t1"])).errors = 0 from rfl]
    rw [show (handle_logfile decimalInt decimalRat (fun _ => some "x")
        (fun _ _ => false) 5000 "f.tsv.gz"
        (.content ["idfa\td1\t5\t5\t1"])).processed = 1 from rfl]
    norm_num [NORMAL_ERR_RATE]
  · have h := claim7_error_rate_gate_advisory decimalInt decimalRat
      (fun _ => some "x") (fun _ _ => false) 5000 "g.tsv.gz" (.content [])
    exact h.2.1 rfl

lemma workerGo_trace (raises : String → Batch → Bool) (bs : ℕ) :
    ∀ (jobs : List AppsInstalled) (coll : Collector) (p e c : ℕ), c < bs →
      ∃ pre rp re,
        (workerGo raises bs jobs coll p e c).2
          = pre ++ [WEvent.reportEv rp re] ∧
        (workerGo raises bs jobs coll p e c).1 = (rp, re) ∧
        (∀ ev ∈ pre, ev = WEvent.flushEv bs false ∨
          ∃ c', ev = WEvent.flushEv c' true ∧ 0 < c' ∧ c' < bs ∧
            pre.getLast? = some ev) := by
  intro jobs
  induction jobs with
  | nil =>
    intro coll p e c hc
    simp only [workerGo]
    split_ifs with h0
    · refine ⟨[WEvent.flushEv c true], _, _, rfl, rfl, ?_⟩
      intro ev hev
      rw [List.mem_singleton] at hev
      subst hev
      exact Or.inr ⟨c, rfl, h0, hc, rfl⟩
    · exact ⟨[], p, e, rfl, rfl, by simp⟩
  | cons job rest ih =>
    intro coll p e c hc
    simp only [workerGo]
    split_ifs with hflush
    · have hceq : c + 1 = bs := by omega
      obtain ⟨pre, rp, re, htr, hres, hpre⟩ := ih [] _ _ 0 (by omega)
      refine ⟨WEvent.flushEv (c + 1) false :: pre, rp, re, ?_, hres, ?_⟩
      · rw [htr, List.cons_append]
      · intro ev hev
        rcases List.mem_cons.mp hev with rfl | hev
        · exact Or.inl (by rw [hceq])
        · rcases hpre ev hev with h' | ⟨c', hev', h1, h2, hlast⟩
          · exact Or.inl h'
          · refine Or.inr ⟨c', hev', h1, h2, ?_⟩
            rcases pre with _ | ⟨y, ys⟩
            · cases hev
            · rw [List.getLast?_cons_cons]
              exact hlast
    · exact ih _ p e (c + 1) (by omega)

/-- C8: in a worker's event trace, every flush before the final report is
either a size-threshold flush recording exactly `batchSize` collected jobs
(the accumulator is cleared after each flush, so the counter reaches the
threshold exactly), or the single queue-empty flush of a non-empty partial
batch (`0 < c < batchSize`), which is immediately followed by the report;
the trace ends with exactly one report event carrying the final
`(processed, errors)` counters. -/
theorem claim8_flush_protocol (raises : String → Batch → Bool)
    (batchSize : ℕ) (jobs : List AppsInstalled) (h : 1 ≤ batchSize) :
    ∃ pre p e,
      workerTrace raises batchSize jobs = pre ++ [WEvent.reportEv p e] ∧
      handle_insert_appsinstalled raises batchSize jobs = (p, e) ∧
      (∀ ev ∈ pre, ev = WEvent.flushEv batchSize false ∨
        ∃ c, ev = WEvent.flushEv c true ∧ 0 < c ∧ c < batchSize ∧
          pre.getLast? = some ev) := by
  unfold workerTrace handle_insert_appsinstalled
  exact workerGo_trace raises batchSize jobs [] 0 0 0 (by omega)

/-- Witness for C8: three jobs with threshold 2 produce one full-batch
flush, one queue-empty partial flush, and the final report. -/
theorem claim8_witness :
    ∃ pre p e,
      workerTrace (fun _ _ => false) 2
          [⟨"idfa", "d1", .num 1, .num 2, [1]⟩,
           ⟨"idfa", "d2", .num 1, .num 2, [2]⟩,
           ⟨"idfa", "d3", .num 1, .num 2, [3]⟩]
        = pre ++ [WEvent.reportEv p e] ∧
      handle_insert_appsinstalled (fun _ _ => false) 2
          [⟨"idfa", "d1", .num 1, .num 2, [1]⟩,
           ⟨"idfa", "d2", .num 1, .num 2, [2]⟩,
           ⟨"idfa", "d3", .num 1, .num 2, [3]⟩] = (p, e) ∧
      (∀ ev ∈ pre, ev = WEvent.flushEv 2 false ∨
        ∃ c, ev = WEvent.flushEv c true ∧ 0 < c ∧ c < 2 ∧
          pre.getLast? = some ev) :=
  claim8_flush_protocol (fun _ _ => false) 2
    [⟨"idfa", "d1", .num 1, .num 2, [1]⟩,
     ⟨"idfa", "d2", .num 1, .num 2, [2]⟩,
     ⟨"idfa", "d3", .num 1, .num 2, [3]⟩] (by omega)

/-- Witness for the amended C6 at a concrete duplicate-free job list. -/
theorem claim6_witness :
    (handle_insert_appsinstalled (fun _ _ => false) 5000
        [⟨"idfa", "d1", .num 55, .num 42, [1]⟩,
         ⟨"idfa", "d2", .num 55, .num 42, [2]⟩]).1
      + (handle_insert_appsinstalled (fun _ _ => false) 5000
        [⟨"idfa", "d1", .num 55, .num 42, [1]⟩,
         ⟨"idfa", "d2", .num 55, .num 42, [2]⟩]).2 = 2 :=
  (claim6_drain_counters (fun _ _ => false) 5000
    [⟨"idfa", "d1", .num 55, .num 42, [1]⟩,
     ⟨"idfa", "d2", .num 55, .num 42, [2]⟩]).2 (by decide)

end MemcLoad
